import Mathlib

/-!
Verification of the scan-to-sticker utility (src/main.py).

The program reads bytes from a serial scanner, reassembles carriage-return
terminated lines, extracts a 6-to-12-digit identifier embedded as
"/m/<digits>/", and composes a fixed-size PNG label containing fixed text,
three logo rasters and a Code-128 barcode of the prefixed identifier.

This file is a shallow embedding of that script.  Bytes are `Nat` values
(0..255), decoded text is `List Char`, Pillow images are records carrying
their pixel dimensions together with a pixel function, and the external
collaborators (serial port list, logo files on disk, the treepoem barcode
renderer, font metrics, the wall clock) are fields of an `Env` record.
-/

/- ------------------------------------------------------------------ -/
/- Python text primitives: str.strip and bytes.decode                  -/
/- ------------------------------------------------------------------ -/
/-- The set of characters Python's `str.strip()` removes (`str.isspace`):
ASCII whitespace, the C1 separators, NEL, NBSP and the Unicode space
characters. -/
def pyIsSpace (c : Char) : Bool :=
  let n := c.toNat
  (9 ≤ n && n ≤ 13) || (28 ≤ n && n ≤ 32) || n == 133 || n == 160 ||
  n == 0x1680 || (0x2000 ≤ n && n ≤ 0x200A) || n == 0x2028 || n == 0x2029 ||
  n == 0x202F || n == 0x205F || n == 0x3000

/-- Python `str.strip()`: drop leading and trailing whitespace. -/
def pyStrip (s : List Char) : List Char :=
  ((s.dropWhile pyIsSpace).reverse.dropWhile pyIsSpace).reverse

/-- UTF-8 continuation byte: 0x80..0xBF. -/
def contB (b : Nat) : Bool := 0x80 ≤ b && b ≤ 0xBF

/-- The second-byte range of a multi-byte UTF-8 lead: 0xE0 requires A0..BF,
0xED requires 80..9F (no surrogates), 0xF0 requires 90..BF, 0xF4 requires
80..8F, every other lead requires 80..BF. -/
def cont2 (lead b : Nat) : Bool :=
  (if lead == 0xE0 then 0xA0 else if lead == 0xF0 then 0x90 else 0x80) ≤ b &&
  b ≤ (if lead == 0xED then 0x9F else if lead == 0xF4 then 0x8F else 0xBF)

/-- CPython's UTF-8 decode as a sequence of events: `some c` for each decoded
scalar, `none` for each maximal subpart of an ill-formed sequence (the
decoding then resumes at the first byte after that subpart).  The
`errors="ignore"`, `errors="replace"` and `errors="strict"` handlers are all
post-processings of this event list. -/
def pyDecodeRaw : List Nat → List (Option Char)
  | [] => []
  | b :: bs =>
    if b < 0x80 then some (Char.ofNat b) :: pyDecodeRaw bs
    else if b < 0xC2 then none :: pyDecodeRaw bs
    else if b ≤ 0xDF then
      match bs with
      | [] => [none]
      | b2 :: bs2 =>
        if contB b2 then some (Char.ofNat ((b - 0xC0) * 64 + (b2 - 0x80))) :: pyDecodeRaw bs2
        else none :: pyDecodeRaw (b2 :: bs2)
    else if b ≤ 0xEF then
      match bs with
      | [] => [none]
      | b2 :: bs2 =>
        if cont2 b b2 then
          match bs2 with
          | [] => [none]
          | b3 :: bs3 =>
            if contB b3 then
              some (Char.ofNat ((b - 0xE0) * 4096 + (b2 - 0x80) * 64 + (b3 - 0x80))) ::
                pyDecodeRaw bs3
            else none :: pyDecodeRaw (b3 :: bs3)
        else none :: pyDecodeRaw (b2 :: bs2)
    else if b ≤ 0xF4 then
      match bs with
      | [] => [none]
      | b2 :: bs2 =>
        if cont2 b b2 then
          match bs2 with
          | [] => [none]
          | b3 :: bs3 =>
            if contB b3 then
              match bs3 with
              | [] => [none]
              | b4 :: bs4 =>
                if contB b4 then
                  some (Char.ofNat ((b - 0xF0) * 262144 + (b2 - 0x80) * 4096 +
                    (b3 - 0x80) * 64 + (b4 - 0x80))) :: pyDecodeRaw bs4
                else none :: pyDecodeRaw (b4 :: bs4)
            else none :: pyDecodeRaw (b3 :: bs3)
        else none :: pyDecodeRaw (b2 :: bs2)
    else none :: pyDecodeRaw bs
termination_by l => l.length
decreasing_by all_goals first
  | omega
  | (simp only [List.length_cons]; omega)

/-- Python `bytes.decode(errors="ignore")`: undecodable subparts are dropped. -/
def pyDecodeIgnore (bs : List Nat) : List Char :=
  (pyDecodeRaw bs).filterMap id

/-- Python `bytes.decode(errors="replace")`: each undecodable subpart becomes U+FFFD. -/
def pyDecodeReplace (bs : List Nat) : List Char :=
  (pyDecodeRaw bs).map (fun o => o.getD (Char.ofNat 0xFFFD))

/-- Python `bytes.decode()` with the default strict handler: `none` models a raised
`UnicodeDecodeError`. -/
def pyDecodeStrict (bs : List Nat) : Option (List Char) :=
  if (pyDecodeRaw bs).all Option.isSome then some ((pyDecodeRaw bs).filterMap id)
  else none

/- ------------------------------------------------------------------ -/
/- Serial configuration constants (src/main.py lines 12-15)            -/
/- ------------------------------------------------------------------ -/
/-- END_BYTES = b"\r" -/
def END_BYTES : List Nat := [13]

/-- Python `bytes.endswith`. -/
def pyEndswith (s suf : List Nat) : Bool := suf.isSuffixOf s

/- ------------------------------------------------------------------ -/
/- The line framer (the buffer logic of main's loop, lines 119-124)    -/
/- ------------------------------------------------------------------ -/
/-- Replay of the framing part of `main`'s loop on a list of read chunks:
each iteration appends one chunk to the pending buffer, and exactly when the
buffer then ends with `END_BYTES` it decodes (ignore), strips, emits the line
and clears the buffer.  Returns the emitted lines and the final pending
buffer. -/
def framerProc (buf : List Nat) : List (List Nat) → List (List Char) × List Nat
  | [] => ([], buf)
  | c :: cs =>
    let b := buf ++ c
    if pyEndswith b END_BYTES then
      let r := framerProc [] cs
      (pyStrip (pyDecodeIgnore b) :: r.1, r.2)
    else framerProc b cs

/-- Splitting a byte stream on the terminator byte 13: the list of completed
(terminated) segments, each without its terminator; bytes after the last
terminator are the pending remainder and are not returned.  `cur` is the
segment accumulated so far. -/
def splitSegs (cur : List Nat) : List Nat → List (List Nat)
  | [] => []
  | b :: bs => if b == 13 then cur :: splitSegs [] bs else splitSegs (cur ++ [b]) bs

/-- The line a completed segment denotes: decoded permissively and stripped. -/
def segLine (seg : List Nat) : List Char := pyStrip (pyDecodeIgnore seg)

/- ------------------------------------------------------------------ -/
/- re.search(r"/m/(\d{6,12})/", line)  (line 126)                      -/
/- ------------------------------------------------------------------ -/
/-- Python's `\\d` in a `str` pattern (no re.ASCII flag in the source): any
Unicode decimal digit, i.e. category Nd.  The ranges below are the complete
Nd table of Unicode 15.0/15.1 (the versions shipped with CPython 3.12/3.13);
each range is one script's run of ten digits, plus the fifty mathematical
digits at 1D7CE..1D7FF. -/
def pyIsDigit (c : Char) : Bool :=
  let n := c.toNat
  (0x30 ≤ n && n ≤ 0x39) || (0x660 ≤ n && n ≤ 0x669) ||
  (0x6F0 ≤ n && n ≤ 0x6F9) || (0x7C0 ≤ n && n ≤ 0x7C9) ||
  (0x966 ≤ n && n ≤ 0x96F) || (0x9E6 ≤ n && n ≤ 0x9EF) ||
  (0xA66 ≤ n && n ≤ 0xA6F) || (0xAE6 ≤ n && n ≤ 0xAEF) ||
  (0xB66 ≤ n && n ≤ 0xB6F) || (0xBE6 ≤ n && n ≤ 0xBEF) ||
  (0xC66 ≤ n && n ≤ 0xC6F) || (0xCE6 ≤ n && n ≤ 0xCEF) ||
  (0xD66 ≤ n && n ≤ 0xD6F) || (0xDE6 ≤ n && n ≤ 0xDEF) ||
  (0xE50 ≤ n && n ≤ 0xE59) || (0xED0 ≤ n && n ≤ 0xED9) ||
  (0xF20 ≤ n && n ≤ 0xF29) || (0x1040 ≤ n && n ≤ 0x1049) ||
  (0x1090 ≤ n && n ≤ 0x1099) || (0x17E0 ≤ n && n ≤ 0x17E9) ||
  (0x1810 ≤ n && n ≤ 0x1819) || (0x1946 ≤ n && n ≤ 0x194F) ||
  (0x19D0 ≤ n && n ≤ 0x19D9) || (0x1A80 ≤ n && n ≤ 0x1A89) ||
  (0x1A90 ≤ n && n ≤ 0x1A99) || (0x1B50 ≤ n && n ≤ 0x1B59) ||
  (0x1BB0 ≤ n && n ≤ 0x1BB9) || (0x1C40 ≤ n && n ≤ 0x1C49) ||
  (0x1C50 ≤ n && n ≤ 0x1C59) || (0xA620 ≤ n && n ≤ 0xA629) ||
  (0xA8D0 ≤ n && n ≤ 0xA8D9) || (0xA900 ≤ n && n ≤ 0xA909) ||
  (0xA9D0 ≤ n && n ≤ 0xA9D9) || (0xA9F0 ≤ n && n ≤ 0xA9F9) ||
  (0xAA50 ≤ n && n ≤ 0xAA59) || (0xABF0 ≤ n && n ≤ 0xABF9) ||
  (0xFF10 ≤ n && n ≤ 0xFF19) || (0x104A0 ≤ n && n ≤ 0x104A9) ||
  (0x10D30 ≤ n && n ≤ 0x10D39) || (0x11066 ≤ n && n ≤ 0x1106F) ||
  (0x110F0 ≤ n && n ≤ 0x110F9) || (0x11136 ≤ n && n ≤ 0x1113F) ||
  (0x111D0 ≤ n && n ≤ 0x111D9) || (0x112F0 ≤ n && n ≤ 0x112F9) ||
  (0x11450 ≤ n && n ≤ 0x11459) || (0x114D0 ≤ n && n ≤ 0x114D9) ||
  (0x11650 ≤ n && n ≤ 0x11659) || (0x116C0 ≤ n && n ≤ 0x116C9) ||
  (0x11730 ≤ n && n ≤ 0x11739) || (0x118E0 ≤ n && n ≤ 0x118E9) ||
  (0x11950 ≤ n && n ≤ 0x11959) || (0x11C50 ≤ n && n ≤ 0x11C59) ||
  (0x11D50 ≤ n && n ≤ 0x11D59) || (0x11DA0 ≤ n && n ≤ 0x11DA9) ||
  (0x11F50 ≤ n && n ≤ 0x11F59) || (0x16A60 ≤ n && n ≤ 0x16A69) ||
  (0x16AC0 ≤ n && n ≤ 0x16AC9) || (0x16B50 ≤ n && n ≤ 0x16B59) ||
  (0x1D7CE ≤ n && n ≤ 0x1D7FF) || (0x1E140 ≤ n && n ≤ 0x1E149) ||
  (0x1E2F0 ≤ n && n ≤ 0x1E2F9) || (0x1E4F0 ≤ n && n ≤ 0x1E4F9) ||
  (0x1E950 ≤ n && n ≤ 0x1E959) || (0x1FBF0 ≤ n && n ≤ 0x1FBF9)

/-- Backtracking step of the greedy quantifier `\d{6,12}`: starting from `k`
digits, try shrinking the repetition until the trailing "/" matches; below 6
repetitions the whole attempt fails. -/
def reTryLen (t : List Char) : Nat → Option (List Char)
  | 0 => none
  | k + 1 =>
    if 6 ≤ k + 1 && (t.take (k + 1)).all pyIsDigit &&
        ((t.drop (k + 1)).head? == some '/') then
      some (t.take (k + 1))
    else reTryLen t k

/-- Attempt the pattern "/m/(\d{6,12})/" anchored at the head of `s`,
returning the captured group: after the literal "/m/", the engine greedily
consumes up to 12 decimal digits (`pyIsDigit`) and backtracks down to 6
looking for "/". -/
def reMatchAt : List Char → Option (List Char)
  | a :: b :: c :: t =>
    if a == '/' && b == 'm' && c == '/' then
      reTryLen t (min (t.takeWhile pyIsDigit).length 12)
    else none
  | _ => none

/-- Python `re.search`: try the pattern at position 0, 1, 2, ... and return the first
(leftmost) successful match's captured group; `none` models a `None` match
object. -/
def reSearch : List Char → Option (List Char)
  | [] => none
  | c :: r =>
    match reMatchAt (c :: r) with
    | some d => some d
    | none => reSearch r

/-- A pattern match described positionally: at offset `i` the line carries
the literal "/m/", then exactly `k` Unicode decimal digits (6 ≤ k ≤ 12),
then "/". -/
def isCandidateAt (s : List Char) (i k : Nat) : Bool :=
  match s.drop i with
  | a :: b :: c :: t =>
    a == '/' && b == 'm' && c == '/' && 6 ≤ k && k ≤ 12 &&
      (t.take k).all pyIsDigit && ((t.drop k).head? == some '/')
  | _ => false

/-- The same positional match shape restricted to the ASCII digits 0-9
(Lean's `Char.isDigit`). -/
def isCandidateAsciiAt (s : List Char) (i k : Nat) : Bool :=
  match s.drop i with
  | a :: b :: c :: t =>
    a == '/' && b == 'm' && c == '/' && 6 ≤ k && k ≤ 12 &&
      (t.take k).all Char.isDigit && ((t.drop k).head? == some '/')
  | _ => false

/-- Decidable scan for an ASCII-digit match anywhere in the line.  The
bounded ranges are exhaustive: any match position is below the line length
and any repetition count is at most 12. -/
def hasAsciiCandidate (s : List Char) : Bool :=
  (List.range s.length).any fun i => (List.range 13).any fun k => isCandidateAsciiAt s i k

/-- The line "/m/" + the six Arabic-Indic digits U+0660..U+0665 + "/". -/
def arabicLine : List Char :=
  ['/', 'm', '/', Char.ofNat 0x660, Char.ofNat 0x661, Char.ofNat 0x662,
   Char.ofNat 0x663, Char.ofNat 0x664, Char.ofNat 0x665, '/']

/-- The UTF-8 encoding of `arabicLine` followed by the terminator byte: each
Arabic-Indic digit U+066x is the two-byte sequence D9 A0+x. -/
def arabicBytes : List Nat :=
  [47, 109, 47, 0xD9, 0xA0, 0xD9, 0xA1, 0xD9, 0xA2, 0xD9, 0xA3, 0xD9, 0xA4,
   0xD9, 0xA5, 47, 13]

/-- A line whose first "/m/" is followed by a 13-digit run and whose second
one carries a valid 6-digit identifier. -/
def longRunLine : List Char := "/m/1234567890123/ /m/123456/".data

/- ------------------------------------------------------------------ -/
/- Label configuration constants (src/main.py lines 17-38)             -/
/- ------------------------------------------------------------------ -/
/-- PREFIX = "UK" -/
def PREFIX : List Char := "UK".data

/-- LABEL_W = 543 -/
def LABEL_W : Nat := 543

/-- LABEL_H = 248 -/
def LABEL_H : Nat := 248

/-- MARGIN = 16 -/
def MARGIN : Nat := 16

/-- TEXT1 = "UBIQOD KEY" -/
def TEXT1 : List Char := "UBIQOD KEY".data

/-- TEXT2 = "P/N : SKPF000252" -/
def TEXT2 : List Char := "P/N : SKPF000252".data

/-- OUT_DIR = pathlib.Path("barcodes") -/
def OUT_DIR : List Char := "barcodes".data

/- ------------------------------------------------------------------ -/
/- Pillow images                                                       -/
/- ------------------------------------------------------------------ -/
/-- A Pillow raster: pixel dimensions plus a pixel function.  Coordinates are
`Int` because the script computes paste offsets by subtraction; Pillow crops a
pasted region to the canvas, so pasting never changes the canvas size. -/
structure Img where
  w : Nat
  h : Nat
  px : Int → Int → Nat

/-- Image.new(mode, (w, h), color) -/
def Img.new (w h : Nat) (color : Nat) : Img := ⟨w, h, fun _ _ => color⟩

/-- img.paste(src, (x0, y0)): pixels inside the pasted rectangle come from
`src`, the rest of the canvas is unchanged, and the canvas dimensions never
change (Pillow crops any part of `src` that falls outside). -/
def Img.paste (base src : Img) (x0 y0 : Int) : Img :=
  ⟨base.w, base.h, fun x y =>
    if x0 ≤ x ∧ x < x0 + src.w ∧ y0 ≤ y ∧ y < y0 + src.h then
      src.px (x - x0) (y - y0)
    else base.px x y⟩

/-- ImageDraw.Draw(img).text((x0, y0), txt, font, fill): pixels covered by the
glyph mask `g` (supplied by the font environment) take the fill colour; the
dimensions never change. -/
def Img.drawText (base : Img) (g : Int → Int → Bool) (x0 y0 : Int) (fill : Nat) : Img :=
  ⟨base.w, base.h, fun x y => if g (x - x0) (y - y0) then fill else base.px x y⟩

/-- img.resize((w', int(h * w'/w)), LANCZOS): width becomes exactly `w'`,
height is scaled by the same ratio (float multiply-then-truncate modelled as
Nat floor division); resampled pixels are modelled by nearest lookup. -/
def Img.resizeW (img : Img) (w' : Nat) : Img :=
  ⟨w', img.h * w' / img.w, fun x y =>
    img.px (x * (img.w : Int) / (w' : Int)) (y * (img.w : Int) / (w' : Int))⟩

/- ------------------------------------------------------------------ -/
/- The external collaborators                                          -/
/- ------------------------------------------------------------------ -/
/-- Everything the script consumes from outside: the PORT override constant
and the enumerated serial devices, the logo files on disk (`none` = missing
or unreadable), font metrics and glyph masks, the treepoem barcode renderer
(`none` = renderer failure), and the wall-clock timestamp of the k-th save. -/
structure Env where
  PORT : Option (List Char)
  ports : List (List Char)
  asset : List Char → Option Img
  bbox : List Char → Nat × Nat
  glyph : Nat → List Char → Int → Int → Bool
  barcode : List Char → Option Img
  ts : Nat → List Char

/-- Font identifiers for the three loaded fonts (arialbd 30, arial 26,
arial 24). -/
def FONT_BIG : Nat := 0

def FONT_MED : Nat := 1

def FONT_BAR : Nat := 2

/- ------------------------------------------------------------------ -/
/- load_logo, make_barcode, compose_label (lines 44-102)               -/
/- ------------------------------------------------------------------ -/
/-- Source `load_logo(path, width_px)`: open the PNG (None models the raised
FileNotFoundError), and resize preserving aspect ratio when the width
differs. -/
def load_logo (env : Env) (path : List Char) (width_px : Nat) : Option Img :=
  (env.asset path).map fun img =>
    if img.w ≠ width_px then img.resizeW width_px else img

/-- Source `make_barcode(code)`: treepoem renders the Code-128 symbol (None models a
renderer failure); a canvas of the symbol's width and the symbol's height
plus caption height plus 8 is created, the symbol pasted at (0,0) and the
code drawn centred 4 pixels below the symbol. -/
def make_barcode (env : Env) (code : List Char) : Option Img :=
  (env.barcode code).map fun symbol =>
    let wh := env.bbox code
    let canvas := Img.new symbol.w (symbol.h + wh.2 + 8) 1
    let canvas := canvas.paste symbol 0 0
    canvas.drawText (env.glyph FONT_BAR code)
      (((symbol.w : Int) - (wh.1 : Int)) / 2) ((symbol.h : Int) + 4) 0

/-- Source `compose_label(uid)`: the fixed-size white canvas with header texts, the
three logos and the barcode of PREFIX + uid pasted onto it.  `Except.error ()`
models an exception escaping compose_label (missing logo file or barcode
renderer failure). -/
def compose_label (env : Env) (uid : List Char) : Except Unit Img :=
  let label := Img.new LABEL_W LABEL_H 0xFFFFFF
  let label := label.drawText (env.glyph FONT_BIG TEXT1) (MARGIN : Int) (MARGIN : Int) 0
  let label := label.drawText (env.glyph FONT_MED TEXT2) (MARGIN : Int) ((MARGIN : Int) + 38) 0
  match load_logo env "img/taqt.png".data 190 with
  | none => .error ()
  | some taqt =>
    match load_logo env "img/WEEE.png".data 70 with
    | none => .error ()
    | some weee =>
      match load_logo env "img/CE.png".data 80 with
      | none => .error ()
      | some ce =>
        let label := label.paste taqt ((LABEL_W : Int) - taqt.w - MARGIN) (MARGIN : Int)
        let gap : Int := 4
        let total_width : Int := (weee.w : Int) + gap + ce.w
        let x_start : Int := (LABEL_W : Int) - total_width - MARGIN
        let y_logos : Int := (LABEL_H : Int) - (max weee.h ce.h : Nat) - MARGIN
        let label := label.paste weee x_start y_logos
        let label := label.paste ce (x_start + weee.w + gap) y_logos
        let full_code := PREFIX ++ uid
        match make_barcode env full_code with
        | none => .error ()
        | some barcode =>
          let label := label.paste barcode (MARGIN : Int) ((LABEL_H : Int) - barcode.h - MARGIN)
          .ok label

/- ------------------------------------------------------------------ -/
/- autodetect_port (lines 105-111)                                     -/
/- ------------------------------------------------------------------ -/
/-- Python truthiness of the PORT constant: None and the empty string are
falsy. -/
def pyTruthy : Option (List Char) → Bool
  | none => false
  | some s => !s.isEmpty

/-- Source `autodetect_port()`: enumerate the ports; if the PORT override is truthy
return it unchanged; otherwise return the single enumerated device, and raise
RuntimeError (modelled as `.error ()`) unless exactly one is present. -/
def autodetect_port (env : Env) : Except Unit (List Char) :=
  let ports := env.ports
  if pyTruthy env.PORT then .ok (env.PORT.getD [])
  else if ports.length = 1 then .ok (ports.getD 0 [])
  else .error ()

/- ------------------------------------------------------------------ -/
/- The ingest loop (main, lines 114-142)                               -/
/- ------------------------------------------------------------------ -/
/-- One logging call of the script, with the payload that identifies it. -/
inductive Log where
  | ready (port : List Char)
  | ignored (line : List Char)
  | saved (code fname : List Char)
  | failure
deriving DecidableEq

/-- Severity used for each logging call. -/
inductive Sev where
  | debug
  | info
  | error
deriving DecidableEq

/-- logging.info / logging.debug / logging.error as used in main. -/
def logSev : Log → Sev
  | .ready _ => .info
  | .ignored _ => .debug
  | .saved _ _ => .info
  | .failure => .error

/-- One file written by `img.save(file, dpi=(300, 300))`: directory, name,
pixel dimensions and DPI metadata. -/
structure SavedFile where
  dir : List Char
  name : List Char
  w : Nat
  h : Nat
  dpi : Nat × Nat
deriving DecidableEq

/-- The observable outcome of a run: files written, log lines emitted, and
the exit status (`none` while the loop is still blocked reading more input,
`some 1` after `sys.exit(1)` or an uncaught startup exception). -/
structure RunResult where
  files : List SavedFile
  logs : List Log
  exit : Option Nat
deriving DecidableEq

/-- file = OUT_DIR / f"label_{PREFIX}{uid}_{ts}.png" -/
def labelFileName (uid ts : List Char) : List Char :=
  "label_".data ++ PREFIX ++ uid ++ "_".data ++ ts ++ ".png".data

/-- The body of main's `while True` loop, replayed over a list of read
chunks.  `buf` is the pending byte buffer, `k` counts saved files (indexing
the wall-clock), `files` and `logs` accumulate output.  Each iteration
appends a chunk; when the buffer then ends with END_BYTES the line is
decoded (ignore), stripped, and cleared from the buffer before the regex is
consulted; a missing match is debug-logged; on a match the label is composed
and saved, and a compose failure is caught, error-logged, and terminates
with exit status 1.  Exhausting the chunk list leaves the loop blocked on
the next read (`exit = none`). -/
def ingest (env : Env) (buf : List Nat) (k : Nat) (files : List SavedFile)
    (logs : List Log) : List (List Nat) → RunResult
  | [] => ⟨files, logs, none⟩
  | c :: cs =>
    let b := buf ++ c
    if pyEndswith b END_BYTES then
      let line := pyStrip (pyDecodeIgnore b)
      match reSearch line with
      | none => ingest env [] k files (logs ++ [.ignored line]) cs
      | some uid =>
        match compose_label env uid with
        | .error _ => ⟨files, logs ++ [.failure], some 1⟩
        | .ok img =>
          let fname := labelFileName uid (env.ts k)
          ingest env [] (k + 1) (files ++ [⟨OUT_DIR, fname, img.w, img.h, (300, 300)⟩])
            (logs ++ [.saved (PREFIX ++ uid) fname]) cs
    else ingest env b k files logs cs

/-- Source `main()`: autodetect the port (an uncaught RuntimeError before the loop
makes the interpreter exit non-zero with nothing logged or written), then log
readiness and run the ingest loop over the reads. -/
def runMain (env : Env) (chunks : List (List Nat)) : RunResult :=
  match autodetect_port env with
  | .error _ => ⟨[], [], some 1⟩
  | .ok port => ingest env [] 0 [] [.ready port] chunks

/-- The pixel dimensions of a compose_label result (0×0 on failure). -/
def resDims : Except Unit Img → Nat × Nat
  | .ok i => (i.w, i.h)
  | .error _ => (0, 0)

/-- The condition the backtracking step tests for a repetition count `j`:
the first `j` characters are digits and the character after them is "/". -/
def goodLen (t : List Char) (j : Nat) : Bool :=
  6 ≤ j && (t.take j).all pyIsDigit && ((t.drop j).head? == some '/')

/-- A line matches when the extractor returns an identifier. -/
def lineMatches (l : List Char) : Bool := (reSearch l).isSome

/- ------------------------------------------------------------------ -/
/- Concrete environments and inputs used to witness the theorems       -/
/- ------------------------------------------------------------------ -/
/-- A placeholder raster standing for a logo file on disk. -/
def demoImg : Img := ⟨190, 40, fun _ _ => 0⟩

/-- A fully healthy environment: one enumerated port, no override, all three
logo files present, a barcode renderer that succeeds, fixed font metrics and
a fixed clock. -/
def demoEnv : Env where
  PORT := none
  ports := ["COM4".data]
  asset := fun _ => some demoImg
  bbox := fun _ => (50, 20)
  glyph := fun _ _ _ _ => false
  barcode := fun _ => some ⟨100, 60, fun _ _ => 0⟩
  ts := fun _ => "20250101_000000".data

/-- demoEnv with every image file missing from disk. -/
def demoEnvNoLogo : Env :=
  { demoEnv with asset := fun _ => none }

/-- demoEnv with two enumerated ports and no override. -/
def demoEnvMulti : Env :=
  { demoEnv with ports := ["COM4".data, "COM7".data] }

/-- demoEnv with the PORT override set and two enumerated ports. -/
def demoEnvOverride : Env :=
  { demoEnv with PORT := some "COM9".data, ports := ["COM4".data, "COM7".data] }

/-- The Scenario A input bytes b"noise/m/123456/end\r". -/
def c4bytes : List Nat :=
  [110, 111, 105, 115, 101, 47, 109, 47, 49, 50, 51, 52, 53, 54, 47, 101, 110, 100, 13]

/- Branch equations of `pyDecodeRaw`, used to rewrite without looping. -/
theorem decR_one (b : Nat) (bs : List Nat) (h : b < 128) :
    pyDecodeRaw (b :: bs) = some (Char.ofNat b) :: pyDecodeRaw bs := by
  rw [pyDecodeRaw.eq_def]; simp [h]

theorem decR_bad (b : Nat) (bs : List Nat) (h1 : ¬ b < 128) (h2 : b < 194) :
    pyDecodeRaw (b :: bs) = none :: pyDecodeRaw bs := by
  rw [pyDecodeRaw.eq_def]; simp [h1, h2]

theorem decR_hi (b : Nat) (bs : List Nat) (h : 244 < b) :
    pyDecodeRaw (b :: bs) = none :: pyDecodeRaw bs := by
  have a1 : ¬ b < 128 := by omega
  have a2 : ¬ b < 194 := by omega
  have a3 : ¬ b ≤ 223 := by omega
  have a4 : ¬ b ≤ 239 := by omega
  have a5 : ¬ b ≤ 244 := by omega
  rw [pyDecodeRaw.eq_def]; simp [a1, a2, a3, a4, a5]

theorem decR_two_nil (b : Nat) (h1 : 194 ≤ b) (h2 : b ≤ 223) :
    pyDecodeRaw [b] = [none] := by
  have a1 : ¬ b < 128 := by omega
  have a2 : ¬ b < 194 := by omega
  have a3 : b ≤ 223 := h2
  rw [pyDecodeRaw.eq_def]; simp [a1, a2, a3]

theorem decR_two_ok (b b2 : Nat) (bs2 : List Nat) (h1 : 194 ≤ b) (h2 : b ≤ 223)
    (hc : contB b2 = true) :
    pyDecodeRaw (b :: b2 :: bs2) =
      some (Char.ofNat ((b - 192) * 64 + (b2 - 128))) :: pyDecodeRaw bs2 := by
  have a1 : ¬ b < 128 := by omega
  have a2 : ¬ b < 194 := by omega
  have a3 : b ≤ 223 := h2
  rw [pyDecodeRaw.eq_def]; simp [a1, a2, a3, hc]

theorem decR_two_err (b b2 : Nat) (bs2 : List Nat) (h1 : 194 ≤ b) (h2 : b ≤ 223)
    (hc : contB b2 = false) :
    pyDecodeRaw (b :: b2 :: bs2) = none :: pyDecodeRaw (b2 :: bs2) := by
  have a1 : ¬ b < 128 := by omega
  have a2 : ¬ b < 194 := by omega
  have a3 : b ≤ 223 := h2
  rw [pyDecodeRaw.eq_def]; simp [a1, a2, a3, hc]

theorem decR_three_nil (b : Nat) (h1 : 224 ≤ b) (h2 : b ≤ 239) :
    pyDecodeRaw [b] = [none] := by
  have a1 : ¬ b < 128 := by omega
  have a2 : ¬ b < 194 := by omega
  have a3 : ¬ b ≤ 223 := by omega
  have a4 : b ≤ 239 := h2
  rw [pyDecodeRaw.eq_def]; simp [a1, a2, a3, a4]

theorem decR_three_one (b b2 : Nat) (h1 : 224 ≤ b) (h2 : b ≤ 239)
    (hc : cont2 b b2 = true) :
    pyDecodeRaw [b, b2] = [none] := by
  have a1 : ¬ b < 128 := by omega
  have a2 : ¬ b < 194 := by omega
  have a3 : ¬ b ≤ 223 := by omega
  have a4 : b ≤ 239 := h2
  rw [pyDecodeRaw.eq_def]; simp [a1, a2, a3, a4, hc]

theorem decR_three_ok (b b2 b3 : Nat) (bs3 : List Nat) (h1 : 224 ≤ b) (h2 : b ≤ 239)
    (hc : cont2 b b2 = true) (hc3 : contB b3 = true) :
    pyDecodeRaw (b :: b2 :: b3 :: bs3) =
      some (Char.ofNat ((b - 224) * 4096 + (b2 - 128) * 64 + (b3 - 128))) ::
        pyDecodeRaw bs3 := by
  have a1 : ¬ b < 128 := by omega
  have a2 : ¬ b < 194 := by omega
  have a3 : ¬ b ≤ 223 := by omega
  have a4 : b ≤ 239 := h2
  rw [pyDecodeRaw.eq_def]; simp [a1, a2, a3, a4, hc, hc3]

theorem decR_three_err3 (b b2 b3 : Nat) (bs3 : List Nat) (h1 : 224 ≤ b) (h2 : b ≤ 239)
    (hc : cont2 b b2 = true) (hc3 : contB b3 = false) :
    pyDecodeRaw (b :: b2 :: b3 :: bs3) = none :: pyDecodeRaw (b3 :: bs3) := by
  have a1 : ¬ b < 128 := by omega
  have a2 : ¬ b < 194 := by omega
  have a3 : ¬ b ≤ 223 := by omega
  have a4 : b ≤ 239 := h2
  rw [pyDecodeRaw.eq_def]; simp [a1, a2, a3, a4, hc, hc3]

theorem decR_three_err2 (b b2 : Nat) (bs2 : List Nat) (h1 : 224 ≤ b) (h2 : b ≤ 239)
    (hc : cont2 b b2 = false) :
    pyDecodeRaw (b :: b2 :: bs2) = none :: pyDecodeRaw (b2 :: bs2) := by
  have a1 : ¬ b < 128 := by omega
  have a2 : ¬ b < 194 := by omega
  have a3 : ¬ b ≤ 223 := by omega
  have a4 : b ≤ 239 := h2
  rw [pyDecodeRaw.eq_def]; simp [a1, a2, a3, a4, hc]

theorem decR_four_nil (b : Nat) (h1 : 240 ≤ b) (h2 : b ≤ 244) :
    pyDecodeRaw [b] = [none] := by
  have a1 : ¬ b < 128 := by omega
  have a2 : ¬ b < 194 := by omega
  have a3 : ¬ b ≤ 223 := by omega
  have a4 : ¬ b ≤ 239 := by omega
  have a5 : b ≤ 244 := h2
  rw [pyDecodeRaw.eq_def]; simp [a1, a2, a3, a4, a5]

theorem decR_four_one (b b2 : Nat) (h1 : 240 ≤ b) (h2 : b ≤ 244)
    (hc : cont2 b b2 = true) :
    pyDecodeRaw [b, b2] = [none] := by
  have a1 : ¬ b < 128 := by omega
  have a2 : ¬ b < 194 := by omega
  have a3 : ¬ b ≤ 223 := by omega
  have a4 : ¬ b ≤ 239 := by omega
  have a5 : b ≤ 244 := h2
  rw [pyDecodeRaw.eq_def]; simp [a1, a2, a3, a4, a5, hc]

theorem decR_four_two (b b2 b3 : Nat) (h1 : 240 ≤ b) (h2 : b ≤ 244)
    (hc : cont2 b b2 = true) (hc3 : contB b3 = true) :
    pyDecodeRaw [b, b2, b3] = [none] := by
  have a1 : ¬ b < 128 := by omega
  have a2 : ¬ b < 194 := by omega
  have a3 : ¬ b ≤ 223 := by omega
  have a4 : ¬ b ≤ 239 := by omega
  have a5 : b ≤ 244 := h2
  rw [pyDecodeRaw.eq_def]; simp [a1, a2, a3, a4, a5, hc, hc3]

theorem decR_four_ok (b b2 b3 b4 : Nat) (bs4 : List Nat) (h1 : 240 ≤ b) (h2 : b ≤ 244)
    (hc : cont2 b b2 = true) (hc3 : contB b3 = true) (hc4 : contB b4 = true) :
    pyDecodeRaw (b :: b2 :: b3 :: b4 :: bs4) =
      some (Char.ofNat ((b - 240) * 262144 + (b2 - 128) * 4096 + (b3 - 128) * 64 +
        (b4 - 128))) :: pyDecodeRaw bs4 := by
  have a1 : ¬ b < 128 := by omega
  have a2 : ¬ b < 194 := by omega
  have a3 : ¬ b ≤ 223 := by omega
  have a4 : ¬ b ≤ 239 := by omega
  have a5 : b ≤ 244 := h2
  rw [pyDecodeRaw.eq_def]; simp [a1, a2, a3, a4, a5, hc, hc3, hc4]

theorem decR_four_err4 (b b2 b3 b4 : Nat) (bs4 : List Nat) (h1 : 240 ≤ b) (h2 : b ≤ 244)
    (hc : cont2 b b2 = true) (hc3 : contB b3 = true) (hc4 : contB b4 = false) :
    pyDecodeRaw (b :: b2 :: b3 :: b4 :: bs4) = none :: pyDecodeRaw (b4 :: bs4) := by
  have a1 : ¬ b < 128 := by omega
  have a2 : ¬ b < 194 := by omega
  have a3 : ¬ b ≤ 223 := by omega
  have a4 : ¬ b ≤ 239 := by omega
  have a5 : b ≤ 244 := h2
  rw [pyDecodeRaw.eq_def]; simp [a1, a2, a3, a4, a5, hc, hc3, hc4]

theorem decR_four_err3 (b b2 b3 : Nat) (bs3 : List Nat) (h1 : 240 ≤ b) (h2 : b ≤ 244)
    (hc : cont2 b b2 = true) (hc3 : contB b3 = false) :
    pyDecodeRaw (b :: b2 :: b3 :: bs3) = none :: pyDecodeRaw (b3 :: bs3) := by
  have a1 : ¬ b < 128 := by omega
  have a2 : ¬ b < 194 := by omega
  have a3 : ¬ b ≤ 223 := by omega
  have a4 : ¬ b ≤ 239 := by omega
  have a5 : b ≤ 244 := h2
  rw [pyDecodeRaw.eq_def]; simp [a1, a2, a3, a4, a5, hc, hc3]

theorem decR_four_err2 (b b2 : Nat) (bs2 : List Nat) (h1 : 240 ≤ b) (h2 : b ≤ 244)
    (hc : cont2 b b2 = false) :
    pyDecodeRaw (b :: b2 :: bs2) = none :: pyDecodeRaw (b2 :: bs2) := by
  have a1 : ¬ b < 128 := by omega
  have a2 : ¬ b < 194 := by omega
  have a3 : ¬ b ≤ 223 := by omega
  have a4 : ¬ b ≤ 239 := by omega
  have a5 : b ≤ 244 := h2
  rw [pyDecodeRaw.eq_def]; simp [a1, a2, a3, a4, a5, hc]

theorem decR_nil : pyDecodeRaw [] = [] := by rw [pyDecodeRaw.eq_def]

theorem cont2_cr (b : Nat) : cont2 b 13 = false := by
  unfold cont2; (repeat' split) <;> simp

/-- Appending the terminator byte to any buffer appends exactly one decoded
carriage return: 13 is never a continuation byte, so it cannot extend or
alter any sequence (complete or truncated) before it. -/
theorem decodeRaw_append_cr (bs : List Nat) :
    pyDecodeRaw (bs ++ [13]) = pyDecodeRaw bs ++ [some '\r'] := by
  have c13 : contB 13 = false := by decide
  have hr : Char.ofNat 13 = '\r' := by decide
  induction bs using pyDecodeRaw.induct with
  | case1 =>
      simp only [List.nil_append, decR_nil]
      rw [decR_one _ _ (by omega), decR_nil, hr]
  | case2 b bs h ih =>
      simp only [List.cons_append]
      rw [decR_one _ _ h, decR_one _ _ h, ih]
      simp
  | case3 b bs h1 h2 ih =>
      simp only [List.cons_append]
      rw [decR_bad _ _ h1 h2, decR_bad _ _ h1 h2, ih]
      simp
  | case4 b h1 h2 h3 =>
      simp only [List.cons_append, List.nil_append]
      rw [decR_two_err _ _ _ (by omega) h3 c13, decR_one _ _ (by omega), decR_nil,
        decR_two_nil _ (by omega) h3, hr]
      rfl
  | case5 b h1 h2 h3 b2 bs2 hc ih =>
      simp only [List.cons_append]
      rw [decR_two_ok _ _ _ (by omega) h3 hc, decR_two_ok _ _ _ (by omega) h3 hc, ih]
      simp
  | case6 b h1 h2 h3 b2 bs2 hc ih =>
      simp only [List.cons_append]
      rw [decR_two_err _ _ _ (by omega) h3 (by simpa using hc),
        decR_two_err _ _ _ (by omega) h3 (by simpa using hc)]
      simp only [List.cons_append] at ih
      rw [ih]
      simp
  | case7 b h1 h2 h3 h4 =>
      simp only [List.cons_append, List.nil_append]
      rw [decR_three_err2 _ _ _ (by omega) h4 (cont2_cr b), decR_one _ _ (by omega),
        decR_nil, decR_three_nil _ (by omega) h4, hr]
      rfl
  | case8 b h1 h2 h3 h4 b2 hc =>
      simp only [List.cons_append, List.nil_append]
      rw [decR_three_err3 _ _ _ _ (by omega) h4 hc c13, decR_one _ _ (by omega),
        decR_nil, decR_three_one _ _ (by omega) h4 hc, hr]
      rfl
  | case9 b h1 h2 h3 h4 b2 hc b3 bs3 hc3 ih =>
      simp only [List.cons_append]
      rw [decR_three_ok _ _ _ _ (by omega) h4 hc hc3,
        decR_three_ok _ _ _ _ (by omega) h4 hc hc3, ih]
      simp
  | case10 b h1 h2 h3 h4 b2 hc b3 bs3 hc3 ih =>
      simp only [List.cons_append]
      rw [decR_three_err3 _ _ _ _ (by omega) h4 hc (by simpa using hc3),
        decR_three_err3 _ _ _ _ (by omega) h4 hc (by simpa using hc3)]
      simp only [List.cons_append] at ih
      rw [ih]
      simp
  | case11 b h1 h2 h3 h4 b2 bs2 hc ih =>
      simp only [List.cons_append]
      rw [decR_three_err2 _ _ _ (by omega) h4 (by simpa using hc),
        decR_three_err2 _ _ _ (by omega) h4 (by simpa using hc)]
      simp only [List.cons_append] at ih
      rw [ih]
      simp
  | case12 b h1 h2 h3 h4 h5 =>
      simp only [List.cons_append, List.nil_append]
      rw [decR_four_err2 _ _ _ (by omega) h5 (cont2_cr b), decR_one _ _ (by omega),
        decR_nil, decR_four_nil _ (by omega) h5, hr]
      rfl
  | case13 b h1 h2 h3 h4 h5 b2 hc =>
      simp only [List.cons_append, List.nil_append]
      rw [decR_four_err3 _ _ _ _ (by omega) h5 hc c13, decR_one _ _ (by omega),
        decR_nil, decR_four_one _ _ (by omega) h5 hc, hr]
      rfl
  | case14 b h1 h2 h3 h4 h5 b2 hc b3 hc3 =>
      simp only [List.cons_append, List.nil_append]
      rw [decR_four_err4 _ _ _ _ _ (by omega) h5 hc hc3 c13, decR_one _ _ (by omega),
        decR_nil, decR_four_two _ _ _ (by omega) h5 hc hc3, hr]
      rfl
  | case15 b h1 h2 h3 h4 h5 b2 hc b3 hc3 b4 bs4 hc4 ih =>
      simp only [List.cons_append]
      rw [decR_four_ok _ _ _ _ _ (by omega) h5 hc hc3 hc4,
        decR_four_ok _ _ _ _ _ (by omega) h5 hc hc3 hc4, ih]
      simp
  | case16 b h1 h2 h3 h4 h5 b2 hc b3 hc3 b4 bs4 hc4 ih =>
      simp only [List.cons_append]
      rw [decR_four_err4 _ _ _ _ _ (by omega) h5 hc hc3 (by simpa using hc4),
        decR_four_err4 _ _ _ _ _ (by omega) h5 hc hc3 (by simpa using hc4)]
      simp only [List.cons_append] at ih
      rw [ih]
      simp
  | case17 b h1 h2 h3 h4 h5 b2 hc b3 bs3 hc3 ih =>
      simp only [List.cons_append]
      rw [decR_four_err3 _ _ _ _ (by omega) h5 hc (by simpa using hc3),
        decR_four_err3 _ _ _ _ (by omega) h5 hc (by simpa using hc3)]
      simp only [List.cons_append] at ih
      rw [ih]
      simp
  | case18 b h1 h2 h3 h4 h5 b2 bs2 hc ih =>
      simp only [List.cons_append]
      rw [decR_four_err2 _ _ _ (by omega) h5 (by simpa using hc),
        decR_four_err2 _ _ _ (by omega) h5 (by simpa using hc)]
      simp only [List.cons_append] at ih
      rw [ih]
      simp
  | case19 b bs h1 h2 h3 h4 h5 ih =>
      simp only [List.cons_append]
      rw [decR_hi _ _ (by omega), decR_hi _ _ (by omega), ih]
      simp

/-- On ASCII bytes the decoder is the plain character map. -/
theorem decodeRaw_ascii : ∀ bs : List Nat, (∀ b ∈ bs, b < 128) →
    pyDecodeRaw bs = bs.map (fun b => some (Char.ofNat b)) := by
  intro bs h
  induction bs with
  | nil => rw [decR_nil]; rfl
  | cons b bs ih =>
    rw [decR_one _ _ (h b (by simp)), ih (fun x hx => h x (by simp [hx]))]
    rfl

theorem decodeIgnore_ascii (bs : List Nat) (h : ∀ b ∈ bs, b < 128) :
    pyDecodeIgnore bs = bs.map Char.ofNat := by
  rw [pyDecodeIgnore, decodeRaw_ascii bs h]
  rw [show (fun b : Nat => some (Char.ofNat b)) = some ∘ Char.ofNat from rfl]
  simp [List.filterMap_map]

theorem decodeIgnore_append_cr (bs : List Nat) :
    pyDecodeIgnore (bs ++ [13]) = pyDecodeIgnore bs ++ ['\r'] := by
  rw [pyDecodeIgnore, decodeRaw_append_cr, List.filterMap_append, pyDecodeIgnore]
  rfl

/-- Stripping is unaffected by a trailing whitespace character. -/
theorem pyStrip_append_space (xs : List Char) (c : Char) (h : pyIsSpace c = true) :
    pyStrip (xs ++ [c]) = pyStrip xs := by
  induction xs with
  | nil => simp [pyStrip, h]
  | cons x xs ih =>
    by_cases hx : pyIsSpace x = true
    · simpa [pyStrip, hx] using ih
    · simp only [pyStrip, List.cons_append, List.dropWhile_cons, hx, if_neg,
        Bool.not_eq_true, List.reverse_cons]
      simp only [List.reverse_append, List.reverse_cons, List.reverse_nil,
        List.nil_append, List.singleton_append]
      rw [List.cons_append, List.dropWhile_cons_of_pos h]

/-- The line emitted for a buffer `z ++ [13]` is the line of the segment `z`. -/
theorem segLine_buffer (z : List Nat) :
    pyStrip (pyDecodeIgnore (z ++ [13])) = segLine z := by
  rw [decodeIgnore_append_cr, pyStrip_append_space _ _ (by decide), segLine]

/-- A buffer ending in the terminator byte satisfies the endswith test. -/
theorem endswith_append_cr (z : List Nat) : pyEndswith (z ++ [13]) END_BYTES = true := by
  rw [pyEndswith, END_BYTES, List.isSuffixOf_iff_suffix]
  exact ⟨z, rfl⟩

/-- A buffer not containing the terminator byte fails the endswith test. -/
theorem endswith_false_of_no_cr (z : List Nat) (h : (13 : Nat) ∉ z) :
    pyEndswith z END_BYTES = false := by
  rw [pyEndswith, END_BYTES]
  by_contra hc
  simp only [Bool.not_eq_false, List.isSuffixOf_iff_suffix] at hc
  obtain ⟨t, ht⟩ := hc
  exact h (by rw [← ht]; simp)

/-- Splitting passes terminator-free bytes straight into the current
segment. -/
theorem splitSegs_no_cr (xs : List Nat) (h : (13 : Nat) ∉ xs) :
    ∀ cur ys, splitSegs cur (xs ++ ys) = splitSegs (cur ++ xs) ys := by
  induction xs with
  | nil => intro cur ys; simp
  | cons x xs ih =>
    intro cur ys
    have hne : x ≠ 13 := fun e => h (by simp [e])
    have hx : (x == 13) = false := by simp [hne]
    have h2 : (13 : Nat) ∉ xs := fun m => h (List.mem_cons_of_mem _ m)
    simp only [List.cons_append, splitSegs, hx, Bool.false_eq_true, if_false,
      List.append_eq]
    rw [ih h2 (cur ++ [x]) ys, List.append_assoc]
    rfl

/-- A chunk whose only terminator byte is its last byte decomposes as a
terminator-free prefix followed by the terminator. -/
theorem chunk_decomp (c : List Nat) (hmem : (13 : Nat) ∈ c)
    (hlast : (13 : Nat) ∉ c.dropLast) : c = c.dropLast ++ [13] := by
  have hne : c ≠ [] := by rintro rfl; simp at hmem
  have hdec := List.dropLast_append_getLast hne
  have : c.getLast hne = 13 := by
    rcases (List.mem_append.mp (by rw [hdec]; exact hmem)) with h | h
    · exact absurd h hlast
    · exact (List.mem_singleton.mp h).symm
  rw [← this]
  exact hdec.symm

/-- Chunking master lemma: as long as every chunk carries the terminator only
as its final byte, the framer's emitted lines are exactly the lines of the
completed segments of the concatenated stream (prefixed by the carried-over
buffer). -/
theorem framer_split (cs : List (List Nat)) :
    ∀ buf, (13 : Nat) ∉ buf → (∀ c ∈ cs, (13 : Nat) ∉ c.dropLast) →
    (framerProc buf cs).1 = (splitSegs buf cs.flatten).map segLine := by
  induction cs with
  | nil =>
    intro buf hbuf hcs
    simp [framerProc, splitSegs, List.flatten]
  | cons c cs ih =>
    intro buf hbuf hcs
    have hctail : (13 : Nat) ∉ c.dropLast := hcs c (by simp)
    have hcs2 : ∀ x ∈ cs, (13 : Nat) ∉ x.dropLast := fun x hx => hcs x (by simp [hx])
    by_cases hmem : (13 : Nat) ∈ c
    · have hc : c = c.dropLast ++ [13] := chunk_decomp c hmem hctail
      have hb : buf ++ c = (buf ++ c.dropLast) ++ [13] := by
        conv_lhs => rw [hc]
        rw [List.append_assoc]
      simp only [framerProc, List.flatten_cons]
      rw [hb, endswith_append_cr]
      simp only [if_true]
      rw [segLine_buffer, ih [] (by simp) hcs2]
      have hsplit : splitSegs buf (c ++ cs.flatten) =
          (buf ++ c.dropLast) :: splitSegs [] cs.flatten := by
        conv_lhs => rw [hc]
        rw [List.append_assoc, splitSegs_no_cr c.dropLast hctail buf ([13] ++ cs.flatten)]
        simp [splitSegs]
      rw [hsplit]
      simp
    · have hnocr : (13 : Nat) ∉ buf ++ c := by
        simp only [List.mem_append]
        rintro (h | h)
        · exact hbuf h
        · exact hmem h
      simp only [framerProc, List.flatten_cons]
      rw [endswith_false_of_no_cr _ hnocr]
      simp only [Bool.false_eq_true, if_false]
      rw [ih (buf ++ c) hnocr hcs2, splitSegs_no_cr c hmem buf cs.flatten]

/-- The pending buffer never ends with the terminator at an iteration
boundary: it is cleared the moment it does. -/
theorem framer_state_no_cr (cs : List (List Nat)) :
    ∀ buf, pyEndswith buf END_BYTES = false →
    pyEndswith (framerProc buf cs).2 END_BYTES = false := by
  induction cs with
  | nil => intro buf h; simpa [framerProc] using h
  | cons c cs ih =>
    intro buf h
    by_cases hb : pyEndswith (buf ++ c) END_BYTES = true
    · simp only [framerProc, hb, if_true]
      exact ih [] (by decide)
    · simp only [framerProc, hb, if_false]
      exact ih (buf ++ c) (by simpa using hb)

theorem goodLen_lt {t : List Char} {j : Nat} (h : goodLen t j = true) : j < t.length := by
  simp only [goodLen, Bool.and_eq_true, beq_iff_eq] at h
  have := h.2
  rw [List.head?_drop] at this
  have := List.getElem?_eq_some.mp (by simpa using this)
  exact this.1

theorem goodLen_char {t : List Char} {j : Nat} (h : goodLen t j = true) :
    t[j]? = some '/' := by
  simp only [goodLen, Bool.and_eq_true, beq_iff_eq] at h
  have := h.2
  rwa [List.head?_drop] at this

theorem goodLen_unique {t : List Char} {j j' : Nat} (h : goodLen t j = true)
    (h' : goodLen t j' = true) : j = j' := by
  by_contra hne
  rcases Nat.lt_or_ge j j' with hlt | hge
  · have hc := goodLen_char h
    have hd : ((t.take j').all pyIsDigit) = true := by
      simp only [goodLen, Bool.and_eq_true] at h'; exact h'.1.2
    have hmem : '/' ∈ t.take j' := by
      apply List.getElem?_mem (n := j)
      rw [List.getElem?_take]
      simp [hlt, hc]
    have := (List.all_eq_true.mp hd) '/' hmem
    exact absurd this (by decide)
  · rcases Nat.lt_or_ge j' j with hlt | hge'
    · have hc := goodLen_char h'
      have hd : ((t.take j).all pyIsDigit) = true := by
        simp only [goodLen, Bool.and_eq_true] at h; exact h.1.2
      have hmem : '/' ∈ t.take j := by
        apply List.getElem?_mem (n := j')
        rw [List.getElem?_take]
        simp [hlt, hc]
      have := (List.all_eq_true.mp hd) '/' hmem
      exact absurd this (by decide)
    · omega

theorem reTryLen_succ (t : List Char) (k : Nat) :
    reTryLen t (k + 1) = if goodLen t (k + 1) then some (t.take (k + 1))
      else reTryLen t k := rfl

theorem goodLen_six {t : List Char} {j : Nat} (h : goodLen t j = true) : 6 ≤ j := by
  simp only [goodLen, Bool.and_eq_true, decide_eq_true_eq] at h
  exact h.1.1

theorem goodLen_digits {t : List Char} {j : Nat} (h : goodLen t j = true) :
    (t.take j).all pyIsDigit = true := by
  simp only [goodLen, Bool.and_eq_true] at h
  exact h.1.2

theorem reTryLen_some_of_good {t : List Char} {j : Nat} (h : goodLen t j = true) :
    ∀ k, j ≤ k → reTryLen t k = some (t.take j) := by
  intro k
  induction k with
  | zero =>
    intro hj
    have := goodLen_six h
    omega
  | succ k ih =>
    intro hj
    by_cases hcond : goodLen t (k + 1) = true
    · have : j = k + 1 := goodLen_unique h hcond
      rw [reTryLen_succ, if_pos hcond, this]
    · rw [reTryLen_succ, if_neg (by simpa using hcond)]
      have : j ≠ k + 1 := by rintro rfl; exact hcond h
      exact ih (by omega)

theorem reTryLen_none {t : List Char} (h : ∀ j, goodLen t j = false) :
    ∀ k, reTryLen t k = none := by
  intro k
  induction k with
  | zero => rfl
  | succ k ih =>
    rw [reTryLen_succ, if_neg (by simp [h (k + 1)])]
    exact ih

theorem reTryLen_some_inv {t : List Char} {d : List Char} :
    ∀ k, reTryLen t k = some d → ∃ j, j ≤ k ∧ goodLen t j = true ∧ d = t.take j := by
  intro k
  induction k with
  | zero => intro h; exact absurd h (by simp [reTryLen])
  | succ k ih =>
    intro h
    rw [reTryLen_succ] at h
    by_cases hcond : goodLen t (k + 1) = true
    · rw [if_pos hcond] at h
      exact ⟨k + 1, le_refl _, hcond, (Option.some_injective _ h).symm⟩
    · rw [if_neg (by simpa using hcond)] at h
      obtain ⟨j, hj, hg, hd⟩ := ih h
      exact ⟨j, by omega, hg, hd⟩

theorem le_takeWhile_of_take_all {t : List Char} {j : Nat}
    (hall : (t.take j).all pyIsDigit = true) (hlen : j ≤ t.length) :
    j ≤ (t.takeWhile pyIsDigit).length := by
  induction t generalizing j with
  | nil => simpa using hlen
  | cons x xs ih =>
    cases j with
    | zero => omega
    | succ j =>
      rw [List.take_succ_cons] at hall
      simp only [List.all_cons, Bool.and_eq_true] at hall
      rw [List.takeWhile_cons_of_pos hall.1, List.length_cons]
      have := ih hall.2 (by simpa using hlen)
      omega

theorem cand0_iff {a b c : Char} {t : List Char} {k : Nat} :
    isCandidateAt (a :: b :: c :: t) 0 k = true ↔
      (a = '/' ∧ b = 'm' ∧ c = '/' ∧ k ≤ 12 ∧ goodLen t k = true) := by
  show (a == '/' && b == 'm' && c == '/' && 6 ≤ k && k ≤ 12 &&
      (t.take k).all pyIsDigit && ((t.drop k).head? == some '/')) = true ↔ _
  simp only [goodLen, Bool.and_eq_true, beq_iff_eq, decide_eq_true_eq]
  tauto

theorem cand_short {s : List Char} {k : Nat} (h : s.length < 3) :
    isCandidateAt s 0 k = false := by
  rcases s with _ | ⟨a, _ | ⟨b, _ | ⟨c, t⟩⟩⟩ <;>
    first | rfl | (simp only [List.length_cons] at h; omega)

theorem reMatchAt_of_cand {s : List Char} {k : Nat} (h : isCandidateAt s 0 k = true) :
    reMatchAt s = some ((s.drop 3).take k) := by
  rcases s with _ | ⟨a, _ | ⟨b, _ | ⟨c, t⟩⟩⟩
  · exact absurd h (by simp [isCandidateAt])
  · exact absurd h (by simp [isCandidateAt])
  · exact absurd h (by simp [isCandidateAt])
  · obtain ⟨ha, hb, hcc, h12, hg⟩ := cand0_iff.mp h
    subst ha; subst hb; subst hcc
    have hrun : k ≤ (t.takeWhile pyIsDigit).length :=
      le_takeWhile_of_take_all (goodLen_digits hg) (le_of_lt (goodLen_lt hg))
    show (if ('/' : Char) == '/' && ('m' : Char) == 'm' && ('/' : Char) == '/' then
        reTryLen t (min (t.takeWhile pyIsDigit).length 12) else none) = _
    rw [if_pos (by decide)]
    rw [reTryLen_some_of_good hg _ (Nat.le_min.mpr ⟨hrun, h12⟩)]
    rfl

theorem reMatchAt_inv {s d : List Char} (h : reMatchAt s = some d) :
    ∃ k, isCandidateAt s 0 k = true ∧ d = (s.drop 3).take k := by
  rcases s with _ | ⟨a, _ | ⟨b, _ | ⟨c, t⟩⟩⟩
  · exact absurd h (by simp [reMatchAt])
  · exact absurd h (by simp [reMatchAt])
  · exact absurd h (by simp [reMatchAt])
  · by_cases hg : (a == '/' && b == 'm' && c == '/') = true
    · have hmatch : reMatchAt (a :: b :: c :: t) =
          reTryLen t (min (t.takeWhile pyIsDigit).length 12) := by
        show (if a == '/' && b == 'm' && c == '/' then
          reTryLen t (min (t.takeWhile pyIsDigit).length 12) else none) = _
        rw [if_pos hg]
      rw [hmatch] at h
      obtain ⟨j, hj, hgood, hd⟩ := reTryLen_some_inv _ h
      simp only [Bool.and_eq_true, beq_iff_eq] at hg
      refine ⟨j, cand0_iff.mpr ⟨hg.1.1, hg.1.2, hg.2, ?_, hgood⟩, by simpa using hd⟩
      have := Nat.le_min.mp hj
      exact this.2
    · have : reMatchAt (a :: b :: c :: t) = none := by
        show (if a == '/' && b == 'm' && c == '/' then
          reTryLen t (min (t.takeWhile pyIsDigit).length 12) else none) = _
        rw [if_neg (by simpa using hg)]
      rw [this] at h
      cases h

theorem reMatchAt_none {s : List Char} (h : ∀ k, isCandidateAt s 0 k = false) :
    reMatchAt s = none := by
  cases hm : reMatchAt s with
  | none => rfl
  | some d =>
    obtain ⟨k, hk, _⟩ := reMatchAt_inv hm
    rw [h k] at hk
    cases hk

theorem cand_shift (c : Char) (r : List Char) (i k : Nat) :
    isCandidateAt (c :: r) (i + 1) k = isCandidateAt r i k := by
  simp only [isCandidateAt, List.drop_succ_cons]

theorem reSearch_none {s : List Char} (h : ∀ i k, isCandidateAt s i k = false) :
    reSearch s = none := by
  induction s with
  | nil => rfl
  | cons c r ih =>
    show (match reMatchAt (c :: r) with
      | some d => some d
      | none => reSearch r) = none
    rw [reMatchAt_none (fun k => h 0 k)]
    exact ih (fun i k => by rw [← cand_shift c r i k]; exact h (i + 1) k)

theorem reSearch_some {s : List Char} {i k : Nat} (hc : isCandidateAt s i k = true)
    (hmin : ∀ j l, isCandidateAt s j l = true → i ≤ j) :
    reSearch s = some (((s.drop i).drop 3).take k) := by
  induction s generalizing i with
  | nil => exact absurd hc (by simp [isCandidateAt])
  | cons c r ih =>
    cases i with
    | zero =>
      show (match reMatchAt (c :: r) with
        | some d => some d
        | none => reSearch r) = _
      rw [reMatchAt_of_cand hc]
      simp
    | succ i =>
      have h0 : ∀ k', isCandidateAt (c :: r) 0 k' = false := by
        intro k'
        by_contra hb
        have : i + 1 ≤ 0 := hmin 0 k' (by simpa using hb)
        omega
      show (match reMatchAt (c :: r) with
        | some d => some d
        | none => reSearch r) = _
      rw [reMatchAt_none h0, List.drop_succ_cons]
      exact ih ((cand_shift c r i k) ▸ hc)
        (fun j l hj => by
          have := hmin (j + 1) l (by rw [cand_shift]; exact hj)
          omega)

theorem cand_bounds {s : List Char} {i k : Nat} (h : isCandidateAt s i k = true) :
    i < s.length ∧ k ≤ 12 := by
  constructor
  · by_contra hi
    have : s.drop i = [] := List.drop_eq_nil_iff.mpr (by omega)
    rw [isCandidateAt, this] at h
    cases h
  · rcases hd : s.drop i with _ | ⟨a, _ | ⟨b, _ | ⟨c, t⟩⟩⟩ <;> rw [isCandidateAt, hd] at h
    · cases h
    · cases h
    · cases h
    · simp only [Bool.and_eq_true, decide_eq_true_eq] at h
      exact h.1.1.2

/-- Whatever the environment supplies, a successful composition returns the
fixed-size canvas: every paste and text draw preserves the dimensions of
`Image.new (LABEL_W, LABEL_H)`. -/
theorem compose_label_dims {env : Env} {uid : List Char} {img : Img}
    (h : compose_label env uid = .ok img) : img.w = LABEL_W ∧ img.h = LABEL_H := by
  unfold compose_label at h
  rcases h1 : load_logo env "img/taqt.png".data 190 with _ | taqt <;>
    rw [h1] at h <;> dsimp only at h
  · cases h
  rcases h2 : load_logo env "img/WEEE.png".data 70 with _ | weee <;>
    rw [h2] at h <;> dsimp only at h
  · cases h
  rcases h3 : load_logo env "img/CE.png".data 80 with _ | ce <;>
    rw [h3] at h <;> dsimp only at h
  · cases h
  rcases h4 : make_barcode env (PREFIX ++ uid) with _ | bc <;>
    rw [h4] at h <;> dsimp only at h
  · cases h
  simp only [Except.ok.injEq] at h
  rw [← h]
  exact ⟨rfl, rfl⟩

/-- A missing primary logo file makes compose_label fail for every uid. -/
theorem compose_label_fails_taqt {env : Env} (h : env.asset "img/taqt.png".data = none) :
    ∀ uid, compose_label env uid = .error () := by
  intro uid
  unfold compose_label load_logo
  rw [h]
  rfl

theorem ingest_files_of_fail {env : Env} (hFail : ∀ uid, compose_label env uid = .error ())
    (cs : List (List Nat)) : ∀ buf k files logs,
    (ingest env buf k files logs cs).files = files := by
  induction cs with
  | nil => intro buf k files logs; rfl
  | cons c cs ih =>
    intro buf k files logs
    simp only [ingest]
    by_cases hb : pyEndswith (buf ++ c) END_BYTES = true
    · rw [if_pos hb]
      rcases hs : reSearch (pyStrip (pyDecodeIgnore (buf ++ c))) with _ | uid <;>
        simp only [hs]
      · exact ih [] k files _
      · rw [hFail uid]
    · rw [if_neg (by simpa using hb)]
      exact ih (buf ++ c) k files logs

theorem ingest_exit_of_fail {env : Env} (hFail : ∀ uid, compose_label env uid = .error ())
    (cs : List (List Nat)) : ∀ buf k files logs,
    (ingest env buf k files logs cs).exit =
      if (framerProc buf cs).1.any lineMatches then some 1 else none := by
  induction cs with
  | nil => intro buf k files logs; rfl
  | cons c cs ih =>
    intro buf k files logs
    simp only [ingest, framerProc]
    by_cases hb : pyEndswith (buf ++ c) END_BYTES = true
    · rw [if_pos hb, if_pos hb]
      rcases hs : reSearch (pyStrip (pyDecodeIgnore (buf ++ c))) with _ | uid <;>
        simp only [hs]
      · rw [ih [] k files _]
        simp [lineMatches, hs]
      · rw [hFail uid]
        simp [lineMatches, hs]
    · have hb2 : pyEndswith (buf ++ c) END_BYTES = false := by simpa using hb
      simp only [hb2, Bool.false_eq_true, if_false]
      exact ih (buf ++ c) k files logs

theorem ingest_errlog_of_fail {env : Env} (hFail : ∀ uid, compose_label env uid = .error ())
    (cs : List (List Nat)) : ∀ buf k files logs,
    (framerProc buf cs).1.any lineMatches = true →
    (ingest env buf k files logs cs).logs.getLast? = some .failure := by
  induction cs with
  | nil => intro buf k files logs h; simp [framerProc] at h
  | cons c cs ih =>
    intro buf k files logs h
    simp only [ingest]
    simp only [framerProc] at h
    by_cases hb : pyEndswith (buf ++ c) END_BYTES = true
    · rw [if_pos hb]
      rw [if_pos hb] at h
      rcases hs : reSearch (pyStrip (pyDecodeIgnore (buf ++ c))) with _ | uid <;>
        simp only [hs]
      · apply ih [] k files _
        simp only [List.any_cons, lineMatches, hs, Option.isSome_none, Bool.false_or] at h
        exact h
      · simp [hFail uid]
    · have hb2 : pyEndswith (buf ++ c) END_BYTES = false := by simpa using hb
      simp only [hb2, Bool.false_eq_true, if_false]
      simp only [hb2, Bool.false_eq_true, if_false] at h
      exact ih (buf ++ c) k files logs h

theorem ingest_stops_of_fail {env : Env} (hFail : ∀ uid, compose_label env uid = .error ())
    (cs extra : List (List Nat)) : ∀ buf k files logs,
    (framerProc buf cs).1.any lineMatches = true →
    ingest env buf k files logs (cs ++ extra) = ingest env buf k files logs cs := by
  induction cs with
  | nil => intro buf k files logs h; simp [framerProc] at h
  | cons c cs ih =>
    intro buf k files logs h
    simp only [List.cons_append, ingest]
    simp only [framerProc] at h
    by_cases hb : pyEndswith (buf ++ c) END_BYTES = true
    · rw [if_pos hb, if_pos hb]
      rw [if_pos hb] at h
      rcases hs : reSearch (pyStrip (pyDecodeIgnore (buf ++ c))) with _ | uid <;>
        simp only [hs]
      · apply ih
        simp only [List.any_cons, lineMatches, hs, Option.isSome_none, Bool.false_or] at h
        exact h
      · rw [hFail uid]
    · have hb2 : pyEndswith (buf ++ c) END_BYTES = false := by simpa using hb
      simp only [hb2, Bool.false_eq_true, if_false]
      simp only [hb2, Bool.false_eq_true, if_false] at h
      exact ih (buf ++ c) k files logs h

/-- The framer emits one line and clears the buffer exactly when the appended
buffer ends with the terminator. -/
theorem framer_single (buf c : List Nat) (h : pyEndswith (buf ++ c) END_BYTES = true) :
    framerProc buf [c] = ([pyStrip (pyDecodeIgnore (buf ++ c))], []) := by
  simp only [framerProc]
  rw [if_pos h]

/- ------------------------------------------------------------------ -/
/- Claim theorems                                                      -/
/- ------------------------------------------------------------------ -/
/-- C1 (counterexample): chunking invariance fails on the code.  The same
byte stream [97, 13, 98, 13] fed as one chunk yields the single line
"a\rb" (the loop checks `endswith` only once per read, after appending the
whole chunk), while fed as two chunks — or split on the terminator — it
yields the two lines "a" and "b". -/
theorem c1_chunking_counterexample :
    (framerProc [] [[97, 13, 98, 13]]).1 ≠ (framerProc [] [[97, 13], [98, 13]]).1 ∧
    (framerProc [] [[97, 13, 98, 13]]).1 ≠
      (splitSegs [] ([[97, 13, 98, 13]] : List (List Nat)).flatten).map segLine := by
  have e1 : pyStrip (pyDecodeIgnore [97, 13, 98, 13]) = ['a', '\r', 'b'] := by
    rw [decodeIgnore_ascii _ (by decide)]; decide
  have e2 : pyStrip (pyDecodeIgnore [97, 13]) = ['a'] := by
    rw [decodeIgnore_ascii _ (by decide)]; decide
  have e3 : pyStrip (pyDecodeIgnore [98, 13]) = ['b'] := by
    rw [decodeIgnore_ascii _ (by decide)]; decide
  have e4 : segLine [97] = ['a'] := by
    rw [segLine, decodeIgnore_ascii _ (by decide)]; decide
  have e5 : segLine [98] = ['b'] := by
    rw [segLine, decodeIgnore_ascii _ (by decide)]; decide
  have hA : (framerProc [] [[97, 13, 98, 13]]).1 = [['a', '\r', 'b']] := by
    rw [framer_single [] [97, 13, 98, 13] (by decide)]
    simp only [List.nil_append, e1]
  have hB : (framerProc [] [[97, 13], [98, 13]]).1 = [['a'], ['b']] := by
    simp only [framerProc, List.nil_append]
    rw [if_pos (by decide : pyEndswith [97, 13] END_BYTES = true),
      if_pos (by decide : pyEndswith [98, 13] END_BYTES = true)]
    simp [e2, e3]
  have hC : (splitSegs [] ([[97, 13, 98, 13]] : List (List Nat)).flatten).map segLine =
      [['a'], ['b']] := by
    have : splitSegs [] ([[97, 13, 98, 13]] : List (List Nat)).flatten = [[97], [98]] := by
      decide
    rw [this]
    simp [e4, e5]
  refine ⟨?_, ?_⟩
  · rw [hA, hB]; decide
  · rw [hA, hC]; decide

/-- C1 (amended): chunking invariance does hold whenever every chunk carries
the terminator byte only in its final position (which is how a scanner
delivers complete scans): the emitted lines then equal the decode-and-strip
of the segments obtained by splitting the concatenated stream on the
terminator. -/
theorem c1_chunking_amended (chunks : List (List Nat))
    (h : ∀ c ∈ chunks, (13 : Nat) ∉ c.dropLast) :
    (framerProc [] chunks).1 = (splitSegs [] chunks.flatten).map segLine :=
  framer_split chunks [] (by simp) h

/-- C1 witness: a terminated chunk, a chunk split mid-line, and its
terminated continuation. -/
theorem c1_chunking_amended_witness :
    (∀ c ∈ [[110, 13], [97], [98, 13]], (13 : Nat) ∉ c.dropLast) ∧
    (framerProc [] [[110, 13], [97], [98, 13]]).1 =
      (splitSegs [] ([[110, 13], [97], [98, 13]] : List (List Nat)).flatten).map segLine :=
  ⟨by decide, c1_chunking_amended [[110, 13], [97], [98, 13]] (by decide)⟩

/-- C2 (amended): the extractor returns the digit run of the leftmost
occurrence of "/m/" + 6-to-12 Unicode decimal digits + "/" (the digit class
of the source pattern's `\\d` on a str), and the explicit absence value
`none` (not an error) when no such substring exists. -/
theorem c2_identifier_extraction (s : List Char) (i k : Nat) :
    ((∀ j, j < s.length → ∀ l, l ≤ 12 → isCandidateAt s j l = false) →
      reSearch s = none) ∧
    (isCandidateAt s i k = true →
      (∀ j, j < s.length → ∀ l, l ≤ 12 → isCandidateAt s j l = true → i ≤ j) →
      reSearch s = some (((s.drop i).drop 3).take k)) := by
  constructor
  · intro h
    apply reSearch_none
    intro j l
    by_contra hb
    have hb' : isCandidateAt s j l = true := by simpa using hb
    obtain ⟨hj, hl⟩ := cand_bounds hb'
    rw [h j hj l hl] at hb'
    cases hb'
  · intro hc hmin
    apply reSearch_some hc
    intro j l hj
    obtain ⟨hjlen, hl12⟩ := cand_bounds hj
    exact hmin j hjlen l hl12 hj

/-- C2 witness: Scenario A's line has its leftmost (only) candidate at
offset 5 with six digits; a line with two candidates returns the leftmost;
"garbage" has none. -/
theorem c2_identifier_extraction_witness :
    reSearch "noise/m/123456/end".data = some "123456".data ∧
    reSearch "x/m/1234567/y/m/654321/".data = some "1234567".data ∧
    reSearch "garbage".data = none := by
  refine ⟨?_, ?_, ?_⟩
  · rw [(c2_identifier_extraction "noise/m/123456/end".data 5 6).2 (by decide) (by decide)]
    decide
  · rw [(c2_identifier_extraction "x/m/1234567/y/m/654321/".data 1 7).2 (by decide) (by decide)]
    decide
  · exact (c2_identifier_extraction "garbage".data 0 0).1 (by decide)

/-- C3 (amended): when every occurrence of "/m/" in the line is followed by
at least 13 decimal digits, the extractor returns absence: the greedy
repetition backtracks from 12 to 6 but each stopping point is still followed
by a digit, never "/", so no partial prefix of the long run is ever
captured. -/
theorem c3_length_boundary (s : List Char)
    (h : ∀ i, i < s.length → (s.drop i).take 3 = ['/', 'm', '/'] →
      (((s.drop i).drop 3).take 13).all pyIsDigit = true ∧
      13 ≤ ((s.drop i).drop 3).length) :
    reSearch s = none := by
  apply reSearch_none
  intro j l
  by_contra hb
  have hb' : isCandidateAt s j l = true := by simpa using hb
  obtain ⟨hjlen, hl12⟩ := cand_bounds hb'
  rcases hd : s.drop j with _ | ⟨a, _ | ⟨b, _ | ⟨c, t⟩⟩⟩ <;> rw [isCandidateAt, hd] at hb'
  · cases hb'
  · cases hb'
  · cases hb'
  · simp only [Bool.and_eq_true, beq_iff_eq, decide_eq_true_eq] at hb'
    obtain ⟨⟨⟨⟨⟨⟨ha, hbm⟩, hcs⟩, h6⟩, h12⟩, hdig⟩, hsl⟩ := hb'
    have htake3 : (s.drop j).take 3 = ['/', 'm', '/'] := by
      rw [hd, ha, hbm, hcs]; rfl
    have ht : (s.drop j).drop 3 = t := by rw [hd]; rfl
    obtain ⟨hall13, hlen13⟩ := h j hjlen htake3
    rw [ht] at hall13 hlen13
    have hchar : t[l]? = some '/' := by rwa [List.head?_drop] at hsl
    have hmem : '/' ∈ t.take 13 := by
      apply List.getElem?_mem (n := l)
      rw [List.getElem?_take]
      simp only [if_pos (by omega : l < 13)]
      exact hchar
    have := (List.all_eq_true.mp hall13) '/' hmem
    exact absurd this (by decide)

/-- C3 witness: a 13-digit run is rejected outright. -/
theorem c3_length_boundary_witness :
    reSearch "/m/1234567890123/".data = none :=
  c3_length_boundary "/m/1234567890123/".data (by decide)

/-- C5: a successful composition always returns a canvas of exactly the
configured 543 × 248 pixels, whatever logo rasters, font metrics and barcode
raster (hence whatever identifier length) the environment supplies: the
barcode is pasted, never scaled, and pasting cannot change the canvas size. -/
theorem c5_fixed_canvas (env : Env) (uid : List Char)
    (h : (compose_label env uid).isOk = true) :
    resDims (compose_label env uid) = (LABEL_W, LABEL_H) ∧
    LABEL_W = 543 ∧ LABEL_H = 248 := by
  rcases hc : compose_label env uid with e | img
  · rw [hc] at h; cases h
  · obtain ⟨hw, hh⟩ := compose_label_dims hc
    exact ⟨by simp [resDims, hw, hh], rfl, rfl⟩

/-- C5 witness: a 12-digit identifier (the longest accepted) composed in the
demo environment still yields the 543 × 248 canvas. -/
theorem c5_fixed_canvas_witness :
    (compose_label demoEnv "123456789012".data).isOk = true ∧
    resDims (compose_label demoEnv "123456789012".data) = (LABEL_W, LABEL_H) := by
  have h : (compose_label demoEnv "123456789012".data).isOk = true := by rfl
  exact ⟨h, (c5_fixed_canvas demoEnv "123456789012".data h).1⟩

/-- C10: a non-empty PORT override is returned unchanged, whatever the
enumerated device list is — the enumeration is performed but its result is
ignored, so the override also succeeds with zero or several candidates. -/
theorem c10_port_override (env : Env) (ports2 : List (List Char)) (p : List Char)
    (h1 : env.PORT = some p) (h2 : p ≠ []) :
    autodetect_port env = .ok p ∧
    autodetect_port { env with ports := ports2 } = .ok p := by
  have ht : pyTruthy env.PORT = true := by
    rw [h1]; simp [pyTruthy, h2]
  constructor
  · unfold autodetect_port
    rw [ht, if_pos rfl, h1]
    rfl
  · unfold autodetect_port
    have ht2 : pyTruthy ({ env with ports := ports2 } : Env).PORT = true := ht
    rw [ht2, if_pos rfl]
    show Except.ok (({ env with ports := ports2 } : Env).PORT.getD []) = _
    rw [show ({ env with ports := ports2 } : Env).PORT = env.PORT from rfl, h1]
    rfl

/-- C10 witness: override "COM9" wins over two enumerated ports, and equally
over an empty enumeration. -/
theorem c10_port_override_witness :
    autodetect_port demoEnvOverride = .ok "COM9".data ∧
    autodetect_port { demoEnvOverride with ports := [] } = .ok "COM9".data :=
  c10_port_override demoEnvOverride [] "COM9".data rfl (by decide)

/-- C8: with no override, autodetection succeeds exactly when one candidate
device is enumerated; otherwise the RuntimeError escapes before the loop
starts: the process reports exit status 1 with no file written and nothing
logged (even the readiness message is never reached). -/
theorem c8_port_selection (env : Env) (chunks : List (List Nat)) (h : env.PORT = none) :
    ((autodetect_port env).isOk = true ↔ env.ports.length = 1) ∧
    (env.ports.length ≠ 1 → runMain env chunks = ⟨[], [], some 1⟩) := by
  have hpt : pyTruthy env.PORT = false := by rw [h]; rfl
  constructor
  · unfold autodetect_port
    rw [hpt]
    simp only [Bool.false_eq_true, if_false]
    by_cases hl : env.ports.length = 1
    · simp [hl, Except.isOk, Except.toBool]
    · simp [hl, Except.isOk, Except.toBool]
  · intro hne
    unfold runMain autodetect_port
    rw [hpt]
    simp only [Bool.false_eq_true, if_false, if_neg hne]

/-- C8 witness: two candidate ports and no override refuse to start. -/
theorem c8_port_selection_witness :
    ((autodetect_port demoEnvMulti).isOk = true ↔ demoEnvMulti.ports.length = 1) ∧
    (demoEnvMulti.ports.length ≠ 1 →
      runMain demoEnvMulti [[97, 13]] = ⟨[], [], some 1⟩) :=
  c8_port_selection demoEnvMulti [[97, 13]] rfl

/-- C6 (counterexample): the framer does not decode with replacement.  For
the terminated buffer [255, 65, 13] the emitted Line is "A" — the
undecodable byte 0xFF is dropped by `errors="ignore"` — whereas
replace-decoding would emit "� A" (U+FFFD then A). -/
theorem c6_decoding_counterexample :
    (framerProc [] [[255, 65, 13]]).1 ≠ [pyStrip (pyDecodeReplace [255, 65, 13])] ∧
    (framerProc [] [[255, 65, 13]]).1 = [['A']] ∧
    pyStrip (pyDecodeReplace [255, 65, 13]) = [Char.ofNat 0xFFFD, 'A'] := by
  have hraw : pyDecodeRaw [255, 65, 13] = [none, some 'A', some '\r'] := by
    rw [decR_hi _ _ (by omega), decodeRaw_ascii _ (by decide)]
    decide
  have hig : pyStrip (pyDecodeIgnore [255, 65, 13]) = ['A'] := by
    rw [pyDecodeIgnore, hraw]; decide
  have hrep : pyStrip (pyDecodeReplace [255, 65, 13]) = [Char.ofNat 0xFFFD, 'A'] := by
    rw [pyDecodeReplace, hraw]; decide
  have hframe : (framerProc [] [[255, 65, 13]]).1 = [['A']] := by
    rw [framer_single [] [255, 65, 13] (by decide)]
    simp only [List.nil_append, hig]
  refine ⟨?_, hframe, hrep⟩
  rw [hframe, hrep]
  decide

/-- C6 (amended): for every terminated buffer the framer emits the
ignore-decoded (undecodable subparts dropped, never a raised error — the
decoder is total), whitespace-stripped text as the Line; and the permissive
decode agrees with the strict decode whenever the strict decode would have
succeeded. -/
theorem c6_permissive_decoding (bs : List Nat) (h : pyEndswith bs END_BYTES = true) :
    framerProc [] [bs] = ([pyStrip (pyDecodeIgnore bs)], []) ∧
    (pyDecodeStrict bs).getD (pyDecodeIgnore bs) = pyDecodeIgnore bs := by
  constructor
  · have := framer_single [] bs (by simpa using h)
    simpa using this
  · rw [pyDecodeStrict, pyDecodeIgnore]
    by_cases hall : (pyDecodeRaw bs).all Option.isSome = true
    · rw [if_pos hall]; rfl
    · rw [if_neg hall]; rfl

/-- C6 witness: the undecodable buffer of the counterexample is nonetheless
framed without error. -/
theorem c6_permissive_decoding_witness :
    pyEndswith [255, 65, 13] END_BYTES = true ∧
    framerProc [] [[255, 65, 13]] = ([pyStrip (pyDecodeIgnore [255, 65, 13])], []) ∧
    (pyDecodeStrict [255, 65, 13]).getD (pyDecodeIgnore [255, 65, 13]) =
      pyDecodeIgnore [255, 65, 13] :=
  ⟨by decide, (c6_permissive_decoding [255, 65, 13] (by decide)).1,
    (c6_permissive_decoding [255, 65, 13] (by decide)).2⟩

/-- C9: the buffer is reset to empty the moment the appended buffer ends with
the terminator — before the regex is consulted, so equally when the line is
ignored and when it yields an identifier — and consequently the pending
buffer never ends with the terminator at an iteration boundary. -/
theorem c9_buffer_reset (env : Env) (buf c : List Nat) (rest chunks : List (List Nat))
    (k : Nat) (files : List SavedFile) (logs : List Log) (uid : List Char) (img : Img)
    (h : pyEndswith (buf ++ c) END_BYTES = true) :
    framerProc buf [c] = ([pyStrip (pyDecodeIgnore (buf ++ c))], []) ∧
    pyEndswith (framerProc [] chunks).2 END_BYTES = false ∧
    (reSearch (pyStrip (pyDecodeIgnore (buf ++ c))) = none →
      ingest env buf k files logs (c :: rest) =
        ingest env [] k files (logs ++ [.ignored (pyStrip (pyDecodeIgnore (buf ++ c)))]) rest) ∧
    (reSearch (pyStrip (pyDecodeIgnore (buf ++ c))) = some uid →
      compose_label env uid = .ok img →
      ingest env buf k files logs (c :: rest) =
        ingest env [] (k + 1)
          (files ++ [⟨OUT_DIR, labelFileName uid (env.ts k), img.w, img.h, (300, 300)⟩])
          (logs ++ [.saved (PREFIX ++ uid) (labelFileName uid (env.ts k))]) rest) := by
  refine ⟨framer_single buf c h, framer_state_no_cr chunks [] (by decide), ?_, ?_⟩
  · intro hs
    simp only [ingest]
    rw [if_pos h, hs]
  · intro hs hcomp
    simp only [ingest]
    rw [if_pos h, hs]
    dsimp only
    rw [hcomp]

/-- C9 witness: a buffer completed by a bare terminator chunk, on a line
that yields no identifier. -/
theorem c9_buffer_reset_witness :
    pyEndswith ([120] ++ [13]) END_BYTES = true ∧
    framerProc [120] [[13]] = ([pyStrip (pyDecodeIgnore ([120] ++ [13]))], []) ∧
    pyEndswith (framerProc [] [[97, 13, 98]]).2 END_BYTES = false :=
  ⟨by decide, (c9_buffer_reset demoEnv [120] [13] [] [[97, 13, 98]] 0 [] []
      "123456".data demoImg (by decide)).1,
    (c9_buffer_reset demoEnv [120] [13] [] [[97, 13, 98]] 0 [] []
      "123456".data demoImg (by decide)).2.1⟩

/-- C4: Scenario A end to end.  Feeding b"noise/m/123456/end\r" through the
loop extracts "123456", and — provided startup succeeded and the composition
environment is healthy — writes exactly one file, named
label_UK123456_<timestamp>.png, into the output directory, sized exactly
LABEL_W × LABEL_H at 300 DPI. -/
theorem c4_happy_path (env : Env) (port : List Char) (img : Img)
    (h1 : autodetect_port env = .ok port)
    (h2 : compose_label env "123456".data = .ok img) :
    reSearch (pyStrip (pyDecodeIgnore c4bytes)) = some "123456".data ∧
    runMain env [c4bytes] =
      ⟨[⟨OUT_DIR, labelFileName "123456".data (env.ts 0), LABEL_W, LABEL_H, (300, 300)⟩],
       [.ready port,
        .saved (PREFIX ++ "123456".data) (labelFileName "123456".data (env.ts 0))],
       none⟩ ∧
    labelFileName "123456".data (env.ts 0) =
      "label_UK123456_".data ++ env.ts 0 ++ ".png".data := by
  have hline : pyStrip (pyDecodeIgnore c4bytes) = "noise/m/123456/end".data := by
    rw [decodeIgnore_ascii c4bytes (by decide)]
    decide
  have hsearch : reSearch "noise/m/123456/end".data = some "123456".data := by decide
  obtain ⟨hw, hh⟩ := compose_label_dims h2
  refine ⟨by rw [hline]; exact hsearch, ?_, by rfl⟩
  unfold runMain
  rw [h1]
  simp only [ingest, List.nil_append]
  rw [if_pos (by decide : pyEndswith c4bytes END_BYTES = true), hline, hsearch]
  dsimp only
  rw [h2]
  simp only [ingest, hw, hh]
  rfl

/-- C4 witness: the demo environment runs Scenario A to completion. -/
theorem c4_happy_path_witness :
    reSearch (pyStrip (pyDecodeIgnore c4bytes)) = some "123456".data ∧
    runMain demoEnv [c4bytes] =
      ⟨[⟨OUT_DIR, labelFileName "123456".data (demoEnv.ts 0), LABEL_W, LABEL_H, (300, 300)⟩],
       [.ready "COM4".data,
        .saved (PREFIX ++ "123456".data) (labelFileName "123456".data (demoEnv.ts 0))],
       none⟩ ∧
    labelFileName "123456".data (demoEnv.ts 0) =
      "label_UK123456_".data ++ demoEnv.ts 0 ++ ".png".data := by
  rcases hc : compose_label demoEnv "123456".data with e | img
  · exfalso
    have hok : (compose_label demoEnv "123456".data).isOk = true := by rfl
    rw [hc] at hok
    cases hok
  · exact c4_happy_path demoEnv "COM4".data img rfl hc

/-- C7: with the primary logo asset missing, every iteration that extracts an
identifier makes compose_label fail; the loop catches it, appends an
error-severity log, exits with status 1, writes no file at all, and consumes
no further input — while runs whose input never yields an identifier never
reach the failure. -/
theorem c7_crash_on_error (env : Env) (chunks extra : List (List Nat)) (port : List Char)
    (h1 : autodetect_port env = .ok port)
    (h2 : env.asset "img/taqt.png".data = none) :
    (runMain env chunks).files = [] ∧
    ((runMain env chunks).exit = some 1 ↔
      (framerProc [] chunks).1.any lineMatches = true) ∧
    ((runMain env chunks).exit = some 1 →
      (runMain env chunks).logs.getLast? = some .failure) ∧
    logSev .failure = .error ∧
    ((runMain env chunks).exit = some 1 →
      runMain env (chunks ++ extra) = runMain env chunks) := by
  have hFail := compose_label_fails_taqt h2
  have hrm : runMain env chunks = ingest env [] 0 [] [.ready port] chunks := by
    unfold runMain; rw [h1]
  have hrm2 : runMain env (chunks ++ extra) =
      ingest env [] 0 [] [.ready port] (chunks ++ extra) := by
    unfold runMain; rw [h1]
  refine ⟨?_, ?_, ?_, rfl, ?_⟩
  · rw [hrm]
    exact ingest_files_of_fail hFail chunks [] 0 [] _
  · rw [hrm, ingest_exit_of_fail hFail chunks [] 0 [] _]
    cases ha : (framerProc [] chunks).1.any lineMatches
    · simp [ha]
    · simp [ha]
  · intro hx
    rw [hrm] at hx ⊢
    rw [ingest_exit_of_fail hFail chunks [] 0 [] _] at hx
    cases ha : (framerProc [] chunks).1.any lineMatches
    · rw [ha] at hx; simp at hx
    · exact ingest_errlog_of_fail hFail chunks [] 0 [] _ ha
  · intro hx
    rw [hrm] at hx
    rw [hrm2, hrm]
    rw [ingest_exit_of_fail hFail chunks [] 0 [] _] at hx
    cases ha : (framerProc [] chunks).1.any lineMatches
    · rw [ha] at hx; simp at hx
    · exact ingest_stops_of_fail hFail chunks extra [] 0 [] _ ha

/-- C7 witness: Scenario D in the demo environment with all image assets
missing, on an input whose line carries an identifier. -/
theorem c7_crash_on_error_witness :
    (runMain demoEnvNoLogo [[47, 109, 47, 49, 50, 51, 52, 53, 54, 47, 13]]).files = [] ∧
    ((runMain demoEnvNoLogo [[47, 109, 47, 49, 50, 51, 52, 53, 54, 47, 13]]).exit = some 1 ↔
      (framerProc [] [[47, 109, 47, 49, 50, 51, 52, 53, 54, 47, 13]]).1.any lineMatches = true) ∧
    ((runMain demoEnvNoLogo [[47, 109, 47, 49, 50, 51, 52, 53, 54, 47, 13]]).exit = some 1 →
      (runMain demoEnvNoLogo [[47, 109, 47, 49, 50, 51, 52, 53, 54, 47, 13]]).logs.getLast? =
        some .failure) ∧
    logSev .failure = .error ∧
    ((runMain demoEnvNoLogo [[47, 109, 47, 49, 50, 51, 52, 53, 54, 47, 13]]).exit = some 1 →
      runMain demoEnvNoLogo ([[47, 109, 47, 49, 50, 51, 52, 53, 54, 47, 13]] ++ [[97, 13]]) =
        runMain demoEnvNoLogo [[47, 109, 47, 49, 50, 51, 52, 53, 54, 47, 13]]) :=
  c7_crash_on_error demoEnvNoLogo [[47, 109, 47, 49, 50, 51, 52, 53, 54, 47, 13]]
    [[97, 13]] "COM4".data rfl rfl
theorem asciiCand_bounds {s : List Char} {i k : Nat}
    (h : isCandidateAsciiAt s i k = true) : i < s.length ∧ k ≤ 12 := by
  constructor
  · by_contra hi
    have : s.drop i = [] := List.drop_eq_nil_iff.mpr (by omega)
    rw [isCandidateAsciiAt, this] at h
    cases h
  · rcases hd : s.drop i with _ | ⟨a, _ | ⟨b, _ | ⟨c, t⟩⟩⟩ <;> rw [isCandidateAsciiAt, hd] at h
    · cases h
    · cases h
    · cases h
    · simp only [Bool.and_eq_true, decide_eq_true_eq] at h
      exact h.1.1.2

/-- A negative scan result really means no ASCII-digit match anywhere. -/
theorem hasAsciiCandidate_false {s : List Char} (h : hasAsciiCandidate s = false) :
    ∀ i k, isCandidateAsciiAt s i k = false := by
  intro i k
  by_contra hb
  have hb' : isCandidateAsciiAt s i k = true := by simpa using hb
  obtain ⟨hi, hk⟩ := asciiCand_bounds hb'
  unfold hasAsciiCandidate at h
  rw [List.any_eq_false] at h
  have h2 := h i (List.mem_range.mpr hi)
  exact h2 (List.any_eq_true.mpr ⟨k, List.mem_range.mpr (by omega), hb'⟩)

/-- C2 (counterexample): the ASCII reading of the digit class is false of
the program.  The framer really reaches the line "/m/٠١٢٣٤٥/" (its UTF-8
bytes decode to it), that line contains no substring of "/m/" + 6-to-12
ASCII digits + "/", and yet the extractor returns the Arabic-Indic digit
run rather than the absence value — and a fortiori not the leftmost ASCII
match: in the source pattern, `\d` matches any Unicode decimal digit. -/
theorem c2_identifier_counterexample :
    pyStrip (pyDecodeIgnore arabicBytes) = arabicLine ∧
    hasAsciiCandidate arabicLine = false ∧
    reSearch arabicLine = some [Char.ofNat 0x660, Char.ofNat 0x661, Char.ofNat 0x662,
      Char.ofNat 0x663, Char.ofNat 0x664, Char.ofNat 0x665] := by
  have hraw : pyDecodeRaw arabicBytes = arabicLine.map some ++ [some '\r'] := by
    show pyDecodeRaw [47, 109, 47, 217, 160, 217, 161, 217, 162, 217, 163, 217, 164,
      217, 165, 47, 13] = _
    rw [decR_one 47 _ (by omega), decR_one 109 _ (by omega), decR_one 47 _ (by omega),
      decR_two_ok 217 160 _ (by omega) (by omega) (by decide),
      decR_two_ok 217 161 _ (by omega) (by omega) (by decide),
      decR_two_ok 217 162 _ (by omega) (by omega) (by decide),
      decR_two_ok 217 163 _ (by omega) (by omega) (by decide),
      decR_two_ok 217 164 _ (by omega) (by omega) (by decide),
      decR_two_ok 217 165 _ (by omega) (by omega) (by decide),
      decR_one 47 _ (by omega), decR_one 13 _ (by omega), decR_nil]
    decide
  refine ⟨?_, by decide, by decide⟩
  rw [pyDecodeIgnore, hraw]
  decide

/-- C3 (counterexample): quantified over every line containing "/m/" plus a
13-digit run plus "/", the absence statement is false.  In longRunLine the
first "/m/" is followed by a run of exactly 13 digits and then "/", yet the
extractor returns "123456" from the second occurrence instead of absence. -/
theorem c3_length_counterexample :
    longRunLine.take 3 = ['/', 'm', '/'] ∧
    ((longRunLine.drop 3).takeWhile pyIsDigit).length = 13 ∧
    ((longRunLine.drop 3).drop 13).head? = some '/' ∧
    reSearch longRunLine = some "123456".data := by
  refine ⟨by decide, by decide, by decide, by decide⟩
